import Mathlib

/-!
Verification of the check execution and classification engine of
erauner/homelab-smoke.

The Go source is shallowly embedded: pure functions become Lean functions,
machine integers become `Int`/`Nat`, Go `error` values become `Option String`
(carrying the message), nil-able pointers become `Option`, and the operating
system (shell, file system, regexp engine, template engine) is abstracted as
explicit oracle parameters.
-/

namespace Engine

/-- Embeds `engine.Outcome` (the five canonical string constants
PASS, FAIL, ERROR, SKIP, WARN of pkg/engine). -/
inductive Outcome where
  | pass
  | fail
  | error
  | skip
  | warn
deriving DecidableEq, Repr

/-- Embeds the exit-code contract constant `ExitPass = 0`. -/
def ExitPass : Int := 0
/-- Embeds `ExitFail = 1`. -/
def ExitFail : Int := 1
/-- Embeds `ExitError = 2`. -/
def ExitError : Int := 2
/-- Embeds `ExitSkip = 3`. -/
def ExitSkip : Int := 3
/-- Embeds `ExitWarn = 4`. -/
def ExitWarn : Int := 4

/-- Embeds `engine.OutcomeFromExitCode`: exit codes 0-4 map to the canonical
outcomes, anything else is ERROR. -/
def OutcomeFromExitCode (code : Int) : Outcome :=
  if code = ExitPass then Outcome.pass
  else if code = ExitFail then Outcome.fail
  else if code = ExitError then Outcome.error
  else if code = ExitSkip then Outcome.skip
  else if code = ExitWarn then Outcome.warn
  else Outcome.error

/-- Embeds `engine.Outcome.IsBlocking`: ERROR always blocks, FAIL blocks iff
gating, the rest never block. -/
def Outcome.IsBlocking (o : Outcome) (gating : Bool) : Bool :=
  match o with
  | Outcome.error => true
  | Outcome.fail => gating
  | _ => false

/-- Embeds `engine.CheckResult`. Go `error` values are represented by their
message strings (`Option String` for the nil-able `ExecutionError`,
`List String` for `ValidationErrors`). -/
structure CheckResult where
  output : String := ""
  exitCode : Int
  executionError : Option String
  validationErrors : List String
  retryCount : Nat := 0
  outcome : Outcome
  gating : Bool
  outcomeReason : String
deriving DecidableEq, Repr

/-- Embeds `CheckResult.IsGatingFailure`. -/
def CheckResult.IsGatingFailure (r : CheckResult) : Bool :=
  r.outcome.IsBlocking r.gating

/-- Embeds `engine.formatValidationFailure`: the one-error case prints the
single error, the general case joins the messages with a semicolon. -/
def formatValidationFailure (validationErrors : List String) : String :=
  match validationErrors with
  | [e] => "validation failed: " ++ e
  | es => "validation failed: " ++ String.intercalate "; " es

/-- Embeds the reason-assignment switch at the end of `engine.ClassifyResult`. -/
def classifyReason (o : Outcome) (exitCode : Int) : String :=
  match o with
  | Outcome.pass => "check passed"
  | Outcome.fail => "check failed (exit code 1)"
  | Outcome.error =>
      if exitCode = ExitError then "script error (exit code 2)"
      else "unexpected exit code " ++ toString exitCode ++ " (treated as ERROR)"
  | Outcome.skip => "check skipped (not applicable)"
  | Outcome.warn => "warning (non-blocking)"

/-- Embeds `engine.ClassifyResult`: execution error takes priority, then
exit 0 with validation errors, then the exit-code map. -/
def ClassifyResult (exitCode : Int) (execErr : Option String)
    (validationErrors : List String) (gating : Bool) : CheckResult :=
  match execErr with
  | some e =>
      { exitCode := exitCode, executionError := some e,
        validationErrors := validationErrors, gating := gating,
        outcome := Outcome.error,
        outcomeReason := "execution failed: " ++ e }
  | none =>
      if exitCode = ExitPass ∧ 0 < validationErrors.length then
        { exitCode := exitCode, executionError := none,
          validationErrors := validationErrors, gating := gating,
          outcome := Outcome.fail,
          outcomeReason := formatValidationFailure validationErrors }
      else
        { exitCode := exitCode, executionError := none,
          validationErrors := validationErrors, gating := gating,
          outcome := OutcomeFromExitCode exitCode,
          outcomeReason := classifyReason (OutcomeFromExitCode exitCode) exitCode }

/-- Embeds `CheckResult.ShouldRetry`: retry only on execution error or raw
exit code 1. -/
def CheckResult.ShouldRetry (r : CheckResult) : Bool :=
  if r.executionError.isSome then true
  else if r.exitCode = ExitFail then true
  else false

end Engine

namespace Validate

/-- Embeds `validate.Validation` (three optional postconditions; in Go an
empty string means the field is unset). -/
structure Validation where
  contains : String := ""
  notContains : String := ""
  regex : String := ""
deriving DecidableEq, Repr

/-- Substring test on character lists (the semantics of Go
`strings.Contains`): does the haystack have the pattern as a contiguous
infix? -/
def listContainsSub [DecidableEq α] : List α → List α → Bool
  | _, [] => true
  | [], _ :: _ => false
  | h :: t, p :: ps =>
      if (p :: ps).isPrefixOf (h :: t) then true else listContainsSub t (p :: ps)

/-- `strings.Contains haystack needle` on strings. -/
def strContains (s pat : String) : Bool :=
  listContainsSub s.data pat.data

/-- Embeds `validate.Output`. The Go regexp engine is abstracted as the
oracle `compile` (modelling `regexp.Compile` followed by `MatchString`):
`none` means the pattern does not compile, `some m` gives the match
predicate. Each postcondition is checked only when its field is non-empty,
and violations accumulate in order (contains, not_contains, regex). -/
def Output (compile : String → Option (String → Bool))
    (output : String) (v : Option Validation) : List String :=
  match v with
  | none => []
  | some v =>
      (if v.contains ≠ "" then
        (if strContains output v.contains then []
         else ["output missing required text: " ++ v.contains])
       else [])
      ++
      (if v.notContains ≠ "" then
        (if strContains output v.notContains then
           ["output contains forbidden text: " ++ v.notContains]
         else [])
       else [])
      ++
      (if v.regex ≠ "" then
        (match compile v.regex with
         | none => ["invalid regex: " ++ v.regex]
         | some m => if m output then [] else ["output does not match regex: " ++ v.regex])
       else [])

/-- Embeds `Validation.IsEmpty` (a method on the nil-able pointer, so it
takes an `Option`): true when the spec is nil or all three fields are the
empty string. -/
def IsEmpty (v : Option Validation) : Bool :=
  match v with
  | none => true
  | some v => v.contains == "" && v.notContains == "" && v.regex == ""

end Validate

namespace Exec

/-- Embeds `exec.CommandResult` (`Error` becomes `Option String`). -/
structure CommandResult where
  output : String := ""
  exitCode : Int
  error : Option String
deriving DecidableEq, Repr

/-- Embeds `exec.shouldRetry`: execution error or exit code 1 warrant a
retry. -/
def shouldRetry (result : CommandResult) : Bool :=
  if result.error.isSome then true
  else if result.exitCode = 1 then true
  else false

/-- Embeds the `retryDelay <= 0` default of `exec.RunWithRetry`
(2 seconds, in milliseconds). -/
def effectiveRetryDelay (retryDelay : Int) : Int :=
  if retryDelay ≤ 0 then 2000 else retryDelay

/-- Embeds the `for attempts <= maxRetries` loop of `exec.RunWithRetry`.
The spawned process is abstracted as the oracle `run` giving each attempt's
result; `remaining` counts the further attempts still allowed
(`maxRetries - idx`), `idx` is the number of attempts already made.
Returns the last result, the total attempts made, and the list of
inter-attempt delays that elapsed (one entry of duration `d` per sleep;
the governing context is modelled as never cancelled). -/
def retryLoop (run : Nat → CommandResult) (d : Int) :
    Nat → Nat → CommandResult × Nat × List Int
  | 0, idx => (run idx, idx + 1, [])
  | remaining + 1, idx =>
      if shouldRetry (run idx) then
        ((retryLoop run d remaining (idx + 1)).1,
         (retryLoop run d remaining (idx + 1)).2.1,
         d :: (retryLoop run d remaining (idx + 1)).2.2)
      else (run idx, idx + 1, [])

/-- Embeds `exec.RunWithRetry`: clamps `maxRetries < 0` to 0, replaces
`retryDelay <= 0` by the 2-second default, then runs the retry loop. -/
def RunWithRetry (run : Nat → CommandResult) (maxRetries : Int)
    (retryDelay : Int) : CommandResult × Nat × List Int :=
  let m : Nat := if maxRetries < 0 then 0 else maxRetries.toNat
  retryLoop run (effectiveRetryDelay retryDelay) m 0

end Exec

/-! Named characters, written via their code points so the development stays
plain ASCII. They cover the Go metacharacter string
`" \t\n'\"\\$` ++ "backtick" ++ `!*?[]{}|<>&;()"` of `shellQuote` plus the
two word-start-sensitive characters `#` and `~`. -/

/-- Space. -/
def spChar : Char := Char.ofNat 32
/-- Horizontal tab. -/
def tabChar : Char := Char.ofNat 9
/-- Newline. -/
def nlChar : Char := Char.ofNat 10
/-- Single quote. -/
def sqChar : Char := Char.ofNat 39
/-- Double quote. -/
def dqChar : Char := Char.ofNat 34
/-- Backslash. -/
def bsChar : Char := Char.ofNat 92
/-- Dollar sign. -/
def dollarChar : Char := Char.ofNat 36
/-- Backtick. -/
def btChar : Char := Char.ofNat 96
/-- Exclamation mark. -/
def bangChar : Char := Char.ofNat 33
/-- Asterisk. -/
def starChar : Char := Char.ofNat 42
/-- Question mark. -/
def qmarkChar : Char := Char.ofNat 63
/-- Left square bracket. -/
def lbrackChar : Char := Char.ofNat 91
/-- Right square bracket. -/
def rbrackChar : Char := Char.ofNat 93
/-- Left curly brace. -/
def lbraceChar : Char := Char.ofNat 123
/-- Right curly brace. -/
def rbraceChar : Char := Char.ofNat 125
/-- Vertical bar. -/
def pipeChar : Char := Char.ofNat 124
/-- Less-than sign. -/
def ltChar : Char := Char.ofNat 60
/-- Greater-than sign. -/
def gtChar : Char := Char.ofNat 62
/-- Ampersand. -/
def ampChar : Char := Char.ofNat 38
/-- Semicolon. -/
def semiChar : Char := Char.ofNat 59
/-- Left parenthesis. -/
def lparenChar : Char := Char.ofNat 40
/-- Right parenthesis. -/
def rparenChar : Char := Char.ofNat 41
/-- Number sign. -/
def hashChar : Char := Char.ofNat 35
/-- Tilde. -/
def tildeChar : Char := Char.ofNat 126
/-- Forward slash. -/
def slashChar : Char := Char.ofNat 47

namespace Exec

/-- Embeds the metacharacter test
`strings.ContainsAny(s, " \t\n... ")` of `exec.shellQuote` applied to one
character: membership in the 22-character Go set. -/
def isShellMeta (c : Char) : Bool :=
  decide (c = spChar ∨ c = tabChar ∨ c = nlChar ∨ c = sqChar ∨ c = dqChar ∨
    c = bsChar ∨ c = dollarChar ∨ c = btChar ∨ c = bangChar ∨ c = starChar ∨
    c = qmarkChar ∨ c = lbrackChar ∨ c = rbrackChar ∨ c = lbraceChar ∨
    c = rbraceChar ∨ c = pipeChar ∨ c = ltChar ∨ c = gtChar ∨ c = ampChar ∨
    c = semiChar ∨ c = lparenChar ∨ c = rparenChar)

/-- Embeds `strings.ReplaceAll(s, singleQuote, closeQuote-dq-sq-dq-openQuote)`
of `exec.shellQuote`: every single quote becomes the five-character splice. -/
def escSq : List Char → List Char
  | [] => []
  | c :: rest =>
      if c = sqChar then sqChar :: dqChar :: sqChar :: dqChar :: sqChar :: escSq rest
      else c :: escSq rest

/-- Embeds `exec.shellQuote` on character lists: the empty string becomes an
empty single-quote pair, a token without metacharacters passes through, any
other token is wrapped in single quotes with embedded quotes spliced. -/
def shellQuoteChars (s : List Char) : List Char :=
  if s = [] then [sqChar, sqChar]
  else if ¬ s.any isShellMeta then s
  else sqChar :: (escSq s ++ [sqChar])

/-- Embeds `exec.shellQuote` (`runner.shellQuote` is a character-for-character
identical copy, so this definition covers both). -/
def shellQuote (s : String) : String :=
  String.mk (shellQuoteChars s.data)

end Exec

namespace Sh

/-- Scanner mode of the POSIX word interpreter: unquoted (with a flag telling
whether a word is currently open), inside single quotes, inside double
quotes, inside a comment, or right after a backslash (unquoted, with the
word-open flag, or inside double quotes). -/
inductive SMode where
  | unq : Bool → SMode
  | insq
  | indq
  | comment
  | escU : Bool → SMode
  | escD
deriving DecidableEq, Repr

/-- Modelled from the spec: POSIX shell word recognition (token splitting and
quote removal), used to give meaning to the phrase interpreting the quoted
token under POSIX shell word rules; the shell itself is not part of this
repository. The scanner walks the characters with the current mode, the
reversed current word `acc`, and the reversed completed words `ws`.
Constructs whose value depends on the environment or on the file system are
out of the model and yield `none`: parameter/command expansion (unquoted or
double-quoted dollar and backtick), tilde expansion at the start of a word,
pathname expansion (unquoted glob characters), operators, and unterminated
quotes. A number sign at the start of a word begins a comment running to the
end of the line; backslash escapes the next character (with the POSIX rules
inside double quotes); single quotes preserve everything up to the closing
quote. -/
def wordsAux : SMode → List Char → List Char → List (List Char) →
    Option (List (List Char))
  | SMode.insq, [], _, _ => none
  | SMode.insq, c :: rest, acc, ws =>
      if c = sqChar then wordsAux (SMode.unq true) rest acc ws
      else wordsAux SMode.insq rest (c :: acc) ws
  | SMode.indq, [], _, _ => none
  | SMode.indq, c :: rest, acc, ws =>
      if c = dqChar then wordsAux (SMode.unq true) rest acc ws
      else if c = bsChar then wordsAux SMode.escD rest acc ws
      else if c = dollarChar ∨ c = btChar then none
      else wordsAux SMode.indq rest (c :: acc) ws
  | SMode.escD, [], _, _ => none
  | SMode.escD, d :: rest, acc, ws =>
      if d = dollarChar ∨ d = btChar ∨ d = dqChar ∨ d = bsChar then
        wordsAux SMode.indq rest (d :: acc) ws
      else if d = nlChar then wordsAux SMode.indq rest acc ws
      else wordsAux SMode.indq rest (d :: bsChar :: acc) ws
  | SMode.comment, [], _, ws => some ws.reverse
  | SMode.comment, c :: rest, acc, ws =>
      if c = nlChar then wordsAux (SMode.unq false) rest acc ws
      else wordsAux SMode.comment rest acc ws
  | SMode.escU _, [], _, _ => none
  | SMode.escU inWord, d :: rest, acc, ws =>
      if d = nlChar then wordsAux (SMode.unq inWord) rest acc ws
      else wordsAux (SMode.unq true) rest (d :: acc) ws
  | SMode.unq true, [], acc, ws => some (acc.reverse :: ws).reverse
  | SMode.unq false, [], _, ws => some ws.reverse
  | SMode.unq inWord, c :: rest, acc, ws =>
      if c = spChar ∨ c = tabChar ∨ c = nlChar then
        (if inWord then wordsAux (SMode.unq false) rest [] (acc.reverse :: ws)
         else wordsAux (SMode.unq false) rest acc ws)
      else if c = sqChar then wordsAux SMode.insq rest acc ws
      else if c = dqChar then wordsAux SMode.indq rest acc ws
      else if c = bsChar then wordsAux (SMode.escU inWord) rest acc ws
      else if c = dollarChar ∨ c = btChar then none
      else if c = hashChar ∧ inWord = false then wordsAux SMode.comment rest acc ws
      else if c = tildeChar ∧ inWord = false then none
      else if c = pipeChar ∨ c = ampChar ∨ c = semiChar ∨ c = ltChar ∨
              c = gtChar ∨ c = lparenChar ∨ c = rparenChar then none
      else if c = starChar ∨ c = qmarkChar ∨ c = lbrackChar ∨ c = rbrackChar then none
      else wordsAux (SMode.unq true) rest (c :: acc) ws

/-- Modelled from the spec: the words a POSIX shell extracts from one command
line (`none` when the result would depend on the environment, see
`wordsAux`). -/
def shellWords (s : String) : Option (List String) :=
  (wordsAux (SMode.unq false) s.data [] []).map (fun ws => ws.map String.mk)

end Sh

namespace Config

/-- Embeds `config.ScriptConfig`. -/
structure ScriptConfig where
  path : String
  args : List String := []
deriving DecidableEq, Repr

/-- Embeds `config.Check`. The nil-able `Expect *ExpectConfig` with its
nil-able `Gating *bool` collapse to one `Option Bool` (`IsGating` only ever
reads the two layers together); the per-check timeout is omitted because no
claim concerns timeout resolution. -/
structure Check where
  name : String := ""
  description : String := ""
  layer : Int := 0
  command : String := ""
  script : Option ScriptConfig := none
  validate : Option Validate.Validation := none
  expectGating : Option Bool := none
  retry : Bool := false
deriving DecidableEq, Repr

/-- Embeds `Check.IsGating`: defaults to true when `Expect`/`Gating` is
unset. -/
def Check.IsGating (c : Check) : Bool :=
  match c.expectGating with
  | none => true
  | some b => b

end Config

namespace Runner

open Config Engine Exec

/-- Embeds `filepath.IsAbs` on POSIX: the path starts with a slash. -/
def isAbs (p : String) : Bool :=
  match p.data with
  | [] => false
  | c :: _ => c = slashChar

/-- Embeds `filepath.Join dir p` for a relative `p`, modulo path cleaning
(no claim depends on cleaning). -/
def joinPath (dir p : String) : String :=
  dir ++ "/" ++ p

/-- The path resolution shared by `exec.RunScript` and
`runner.buildScriptCommand`: a relative script path is joined to the checks
directory. -/
def resolveScriptPath (checksDir p : String) : String :=
  if isAbs p then p else joinPath checksDir p

/-- Embeds `runner.buildScriptCommand`: resolved path, then the
shell-quoted arguments separated by spaces. -/
def buildScriptCommand (checksDir : String) (script : ScriptConfig) : String :=
  let path := resolveScriptPath checksDir script.path
  if script.args = [] then path
  else path ++ " " ++ String.intercalate " " (script.args.map Exec.shellQuote)

/-- Embeds `exec.RunScript`. The file system is abstracted as the oracle
`fs` on resolved paths (`none`: `os.Stat` fails, `some isDir`: the path
exists and `isDir` tells whether it is a directory); the shell is the oracle
`runCommand`. Returns the result together with the list of command lines
handed to the shell, so that not spawning a process is visible in the
model. -/
def RunScript (fs : String → Option Bool) (runCommand : String → CommandResult)
    (scriptPath : String) (args : List String) (checksDir : String) :
    CommandResult × List String :=
  let path := resolveScriptPath checksDir scriptPath
  match fs path with
  | none =>
      ({ output := "", exitCode := -1,
         error := some ("script not found: " ++ path) }, [])
  | some true =>
      ({ output := "", exitCode := -1,
         error := some ("script path is a directory: " ++ path) }, [])
  | some false =>
      let command := args.foldl (fun acc a => acc ++ " " ++ Exec.shellQuote a) path
      (runCommand command, [command])

/-- Embeds `runner.executeCheck`. Template substitution is the oracle `tmpl`
(modelling `config.ApplyTemplateToCheck`: `Except.error` is a substitution
failure), the shell is the oracle `runCmd` (attempt index and command line),
and the regexp engine is the oracle `compile` as in `Validate.Output`.
Returns the classified result together with the list of command lines handed
to the shell. Note the source resolves the script path with
`buildScriptCommand` and hands the command line to `exec.RunCommand` /
`exec.RunWithRetry`; it never calls `exec.RunScript` and never consults the
file system. -/
def executeCheck (tmpl : Check → Except String Check)
    (runCmd : Nat → String → CommandResult)
    (compile : String → Option (String → Bool))
    (checksDir : String) (maxRetries retryDelay : Int) (check : Check) :
    CheckResult × List String :=
  match tmpl check with
  | Except.error e => (ClassifyResult (-1) (some e) [] check.IsGating, [])
  | Except.ok templatedCheck =>
      let step : Option (CommandResult × Nat × List String) :=
        match templatedCheck.script with
        | some script =>
            let command := buildScriptCommand checksDir script
            if check.retry then
              let r := RunWithRetry (fun i => runCmd i command) maxRetries retryDelay
              some (r.1, r.2.1, List.replicate r.2.1 command)
            else some (runCmd 0 command, 1, [command])
        | none =>
            if templatedCheck.command = "" then none
            else if check.retry then
              let r := RunWithRetry (fun i => runCmd i templatedCheck.command)
                maxRetries retryDelay
              some (r.1, r.2.1, List.replicate r.2.1 templatedCheck.command)
            else some (runCmd 0 templatedCheck.command, 1, [templatedCheck.command])
      match step with
      | none =>
          (ClassifyResult (-1) (some "check has no command or script") []
            check.IsGating, [])
      | some (cmdResult, attempts, spawned) =>
          let validationErrors :=
            if cmdResult.exitCode = 0 ∧ cmdResult.error = none ∧ check.validate ≠ none
            then Validate.Output compile cmdResult.output check.validate
            else []
          let result := ClassifyResult cmdResult.exitCode cmdResult.error
            validationErrors check.IsGating
          ({ result with output := cmdResult.output, retryCount := attempts - 1 },
           spawned)

/-- Stable insertion of a check into an already processed list: the new check
goes after every check whose layer is less than or equal. -/
def insertByLayer (c : Check) : List Check → List Check
  | [] => [c]
  | d :: rest =>
      if d.layer ≤ c.layer then d :: insertByLayer c rest
      else c :: d :: rest

/-- Embeds `runner.sortByLayer` (`sort.SliceStable` with
`Layer i < Layer j`): a stable ascending sort by layer; the stable insertion
sort computes the same permutation. -/
def sortByLayer (checks : List Check) : List Check :=
  checks.foldl (fun acc c => insertByLayer c acc) []

/-- Embeds `runner.shouldFailFast` (always true in the source). -/
def shouldFailFast : Bool := true

/-- Embeds the check loop of `runner.Run` with `executeCheck` abstracted as
the oracle `execute`: each check is executed and recorded, and the loop
breaks right after the first result whose gating-blocking decision is
true. -/
def runLoop (execute : Check → CheckResult) :
    List Check → List (Check × CheckResult)
  | [] => []
  | c :: rest =>
      let r := execute c
      if r.IsGatingFailure && shouldFailFast then [(c, r)]
      else (c, r) :: runLoop execute rest

/-- Embeds `runner.RunResult` (counters are the Go ints, all
non-negative). -/
structure RunResult where
  results : List (Check × CheckResult)
  passCount : Nat
  failCount : Nat
  warnCount : Nat
  skipCount : Nat
  errorCount : Nat
  totalCount : Nat
  gatingFails : Nat
deriving Repr

/-- The per-outcome counter updates of `runner.Run`, computed over the
recorded results. -/
def countOutcome (o : Outcome) (rs : List (Check × CheckResult)) : Nat :=
  (rs.filter (fun p => p.2.outcome = o)).length

/-- The `GatingFails` counter of `runner.Run`: FAIL outcomes whose check is
gating (ERROR does not count here). -/
def countGatingFails (rs : List (Check × CheckResult)) : Nat :=
  (rs.filter (fun p => p.2.outcome = Outcome.fail ∧ p.2.gating = true)).length

/-- Embeds `runner.Run`: sort by layer, run the fail-fast loop, count
outcomes over the recorded results, and report the full declared total. -/
def Run (execute : Check → CheckResult) (checks : List Check) : RunResult :=
  let rs := runLoop execute (sortByLayer checks)
  { results := rs,
    passCount := countOutcome Outcome.pass rs,
    failCount := countOutcome Outcome.fail rs,
    warnCount := countOutcome Outcome.warn rs,
    skipCount := countOutcome Outcome.skip rs,
    errorCount := countOutcome Outcome.error rs,
    totalCount := checks.length,
    gatingFails := countGatingFails rs }

/-- Embeds `RunResult.ExitCode`: errors dominate, then gating failures. -/
def RunResult.ExitCode (result : RunResult) : Int :=
  if 0 < result.errorCount then 2
  else if 0 < result.gatingFails then 1
  else 0

end Runner

/-! Theorems. -/

/-- C1: for exit statuses 0-4 with no execution error and no violations,
classification yields PASS, FAIL, ERROR, SKIP, WARN respectively; every exit
status outside that set yields ERROR. -/
theorem claim_C1_exit_code_classification (g : Bool) :
    ((Engine.ClassifyResult 0 none [] g).outcome = Engine.Outcome.pass
      ∧ (Engine.ClassifyResult 1 none [] g).outcome = Engine.Outcome.fail
      ∧ (Engine.ClassifyResult 2 none [] g).outcome = Engine.Outcome.error
      ∧ (Engine.ClassifyResult 3 none [] g).outcome = Engine.Outcome.skip
      ∧ (Engine.ClassifyResult 4 none [] g).outcome = Engine.Outcome.warn)
    ∧ (∀ code : Int, code ∉ ([0, 1, 2, 3, 4] : List Int) →
        (Engine.ClassifyResult code none [] g).outcome = Engine.Outcome.error) := by
  constructor
  · exact ⟨rfl, rfl, rfl, rfl, rfl⟩
  · intro code h
    simp only [List.mem_cons, List.not_mem_nil, or_false, not_or] at h
    obtain ⟨h0, h1, h2, h3, h4⟩ := h
    simp [Engine.ClassifyResult, Engine.OutcomeFromExitCode, Engine.ExitPass,
      Engine.ExitFail, Engine.ExitError, Engine.ExitSkip, Engine.ExitWarn,
      h0, h1, h2, h3, h4]

/-- Witness for C1 at exit status 127. -/
theorem claim_C1_witness :
    (127 : Int) ∉ ([0, 1, 2, 3, 4] : List Int)
    ∧ (Engine.ClassifyResult 127 none [] true).outcome = Engine.Outcome.error :=
  ⟨by decide, (claim_C1_exit_code_classification true).2 127 (by decide)⟩

/-- C2: a non-nil execution error always classifies as ERROR, for every exit
status, violation list and gating flag, and the reason records the error. -/
theorem claim_C2_execution_error_precedence (code : Int) (msg : String)
    (errs : List String) (g : Bool) :
    (Engine.ClassifyResult code (some msg) errs g).outcome = Engine.Outcome.error
    ∧ (Engine.ClassifyResult code (some msg) errs g).outcomeReason
        = "execution failed: " ++ msg :=
  ⟨rfl, rfl⟩

/-- C3: exit status 0 with a nil execution error classifies FAIL exactly when
the violation list is non-empty (with the reason joining all violation
messages), and PASS when it is empty — the only way exit 0 avoids PASS. -/
theorem claim_C3_validation_overrides_pass (errs : List String) (g : Bool) :
    (errs ≠ [] →
       (Engine.ClassifyResult 0 none errs g).outcome = Engine.Outcome.fail
       ∧ (Engine.ClassifyResult 0 none errs g).outcomeReason
           = "validation failed: " ++ String.intercalate "; " errs)
    ∧ (errs = [] →
       (Engine.ClassifyResult 0 none errs g).outcome = Engine.Outcome.pass) := by
  constructor
  · intro hne
    match errs, hne with
    | [e], _ => exact ⟨rfl, rfl⟩
    | e :: f :: t, _ => exact ⟨rfl, rfl⟩
  · intro he
    subst he
    rfl

/-- Witness for C3 with one violation. -/
theorem claim_C3_witness :
    (["boom"] : List String) ≠ []
    ∧ (Engine.ClassifyResult 0 none ["boom"] true).outcome = Engine.Outcome.fail
    ∧ (Engine.ClassifyResult 0 none ["boom"] true).outcomeReason
        = "validation failed: boom" :=
  ⟨by decide,
   ((claim_C3_validation_overrides_pass ["boom"] true).1 (by decide)).1,
   (((claim_C3_validation_overrides_pass ["boom"] true).1 (by decide)).2).trans
     (by decide)⟩

/-- C4: under both gating values, ERROR blocks, FAIL blocks iff gating, and
PASS, WARN, SKIP never block. -/
theorem claim_C4_isBlocking (g : Bool) :
    Engine.Outcome.IsBlocking Engine.Outcome.error g = true
    ∧ Engine.Outcome.IsBlocking Engine.Outcome.fail g = g
    ∧ Engine.Outcome.IsBlocking Engine.Outcome.pass g = false
    ∧ Engine.Outcome.IsBlocking Engine.Outcome.warn g = false
    ∧ Engine.Outcome.IsBlocking Engine.Outcome.skip g = false :=
  ⟨rfl, rfl, rfl, rfl, rfl⟩

/-- C5: `ShouldRetry` is true exactly when the execution error is non-nil or
the raw exit status is 1; in particular a validation-induced FAIL (exit 0,
non-empty violations, nil error) is never retried. -/
theorem claim_C5_shouldRetry (r : Engine.CheckResult) (errs : List String)
    (g : Bool) :
    (r.ShouldRetry = true ↔ (r.executionError ≠ none ∨ r.exitCode = 1))
    ∧ (errs ≠ [] →
        (Engine.ClassifyResult 0 none errs g).ShouldRetry = false) := by
  constructor
  · rcases hOpt : r.executionError with _ | e <;>
      by_cases hx : r.exitCode = 1 <;>
      simp [Engine.CheckResult.ShouldRetry, Engine.ExitFail, hOpt, hx]
  · intro hne
    match errs, hne with
    | e :: t, _ =>
        simp [Engine.ClassifyResult, Engine.CheckResult.ShouldRetry,
          Engine.ExitPass, Engine.ExitFail]

/-- Witness for C5: a validation FAIL is not retried, a raw exit 1 is. -/
theorem claim_C5_witness :
    (Engine.ClassifyResult 0 none ["v"] true).ShouldRetry = false
    ∧ (Engine.ClassifyResult 1 none [] true).ShouldRetry = true :=
  ⟨(claim_C5_shouldRetry (Engine.ClassifyResult 0 none ["v"] true) ["v"] true).2
      (by decide),
   ((claim_C5_shouldRetry (Engine.ClassifyResult 1 none [] true) [] true).1).mpr
      (Or.inr rfl)⟩

/-- The retry loop under a permanently retry-worthy command: it consumes all
allowed attempts and sleeps between every pair of consecutive attempts. -/
theorem retryLoop_allRetry (run : Nat → Exec.CommandResult) (d : Int)
    (h : ∀ i, Exec.shouldRetry (run i) = true) :
    ∀ remaining idx, Exec.retryLoop run d remaining idx
      = (run (idx + remaining), idx + remaining + 1, List.replicate remaining d) := by
  intro remaining
  induction remaining with
  | zero => intro idx; simp [Exec.retryLoop]
  | succ n ih =>
      intro idx
      have hrw : idx + 1 + n = idx + (n + 1) := by omega
      simp only [Exec.retryLoop, h idx, if_true]
      rw [ih (idx + 1)]
      simp [List.replicate_succ, hrw]

/-- C6: with every attempt retry-worthy, `RunWithRetry` makes
`1 + max(maxRetries, 0)` attempts and the (defaulted) retry delay elapses
between each pair of consecutive attempts; with a first attempt that is not
retry-worthy it makes exactly one attempt with no delay; and a negative
`maxRetries` behaves exactly like 0. -/
theorem claim_C6_retry_wrapper (run : Nat → Exec.CommandResult)
    (maxRetries retryDelay : Int) :
    ((∀ i, Exec.shouldRetry (run i) = true) →
        (Exec.RunWithRetry run maxRetries retryDelay).2.1 = 1 + maxRetries.toNat
        ∧ (Exec.RunWithRetry run maxRetries retryDelay).2.2
            = List.replicate ((Exec.RunWithRetry run maxRetries retryDelay).2.1 - 1)
                (Exec.effectiveRetryDelay retryDelay))
    ∧ (Exec.shouldRetry (run 0) = false →
        (Exec.RunWithRetry run maxRetries retryDelay).2.1 = 1
        ∧ (Exec.RunWithRetry run maxRetries retryDelay).2.2 = [])
    ∧ (maxRetries < 0 →
        Exec.RunWithRetry run maxRetries retryDelay
          = Exec.RunWithRetry run 0 retryDelay) := by
  have hm : (if maxRetries < 0 then (0 : Nat) else maxRetries.toNat)
      = maxRetries.toNat := by
    split <;> omega
  refine ⟨?_, ?_, ?_⟩
  · intro h
    unfold Exec.RunWithRetry
    rw [hm, retryLoop_allRetry run _ h maxRetries.toNat 0]
    constructor
    · simp; omega
    · simp
  · intro h
    unfold Exec.RunWithRetry
    rw [hm]
    cases hn : maxRetries.toNat with
    | zero => simp [Exec.retryLoop]
    | succ k => simp [Exec.retryLoop, h]
  · intro h
    unfold Exec.RunWithRetry
    rw [if_pos h]
    norm_num

/-- Witness for C6: a command always exiting 1 with maxRetries = 2 makes 3
attempts with two default delays; a command exiting 2 makes 1 attempt. -/
theorem claim_C6_witness :
    (Exec.RunWithRetry (fun _ => { output := "", exitCode := 1, error := none })
        2 0).2.1 = 3
    ∧ (Exec.RunWithRetry (fun _ => { output := "", exitCode := 1, error := none })
        2 0).2.2 = [2000, 2000]
    ∧ (Exec.RunWithRetry (fun _ => { output := "", exitCode := 2, error := none })
        2 0).2.1 = 1 := by
  have h1 := (claim_C6_retry_wrapper
    (fun _ => { output := "", exitCode := 1, error := none }) 2 0).1 (fun _ => rfl)
  have h2 := ((claim_C6_retry_wrapper
    (fun _ => { output := "", exitCode := 2, error := none }) 2 0).2.1) rfl
  exact ⟨h1.1.trans (by decide), h1.2.trans (by decide), h2.1⟩

/-- C10: an empty postcondition field is treated as absent — when the
validation spec is nil or all three fields are empty strings, `Output`
returns no violations for every output and every regexp semantics. -/
theorem claim_C10_empty_validation (compile : String → Option (String → Bool))
    (output : String) (v : Option Validate.Validation)
    (h : Validate.IsEmpty v = true) :
    Validate.Output compile output v = [] := by
  match v with
  | none => rfl
  | some vv =>
      simp only [Validate.IsEmpty, Bool.and_eq_true, beq_iff_eq] at h
      obtain ⟨⟨h1, h2⟩, h3⟩ := h
      simp [Validate.Output, h1, h2, h3]

/-- Witness for C10 on the all-empty spec. -/
theorem claim_C10_witness :
    Validate.IsEmpty (some {}) = true
    ∧ Validate.Output (fun _ => none) "anything" (some {}) = [] :=
  ⟨rfl, claim_C10_empty_validation (fun _ => none) "anything" (some {}) rfl⟩

/-- Inserting a check is a permutation of consing it. -/
theorem insertByLayer_perm (c : Config.Check) :
    ∀ l : List Config.Check, (Runner.insertByLayer c l).Perm (c :: l) := by
  intro l
  induction l with
  | nil => exact List.Perm.refl _
  | cons d rest ih =>
      simp only [Runner.insertByLayer]
      split
      · exact (ih.cons d).trans (List.Perm.swap c d rest)
      · exact List.Perm.refl _

/-- The insertion-sort fold permutes the accumulator followed by the input. -/
theorem foldl_insert_perm :
    ∀ (l acc : List Config.Check),
      (l.foldl (fun a c => Runner.insertByLayer c a) acc).Perm (acc ++ l) := by
  intro l
  induction l with
  | nil => intro acc; simp
  | cons c t ih =>
      intro acc
      simp only [List.foldl_cons]
      refine (ih (Runner.insertByLayer c acc)).trans ?_
      refine (List.Perm.append_right t (insertByLayer_perm c acc)).trans ?_
      exact List.perm_middle.symm

/-- `sortByLayer` permutes the check list. -/
theorem sortByLayer_perm (checks : List Config.Check) :
    (Runner.sortByLayer checks).Perm checks := by
  have h := foldl_insert_perm checks []
  simpa [Runner.sortByLayer] using h

/-- Inserting a check preserves ascending layer order. -/
theorem insertByLayer_sorted (c : Config.Check) :
    ∀ l, List.Pairwise (fun a b : Config.Check => a.layer ≤ b.layer) l →
      List.Pairwise (fun a b : Config.Check => a.layer ≤ b.layer)
        (Runner.insertByLayer c l) := by
  intro l
  induction l with
  | nil => intro _; simp [Runner.insertByLayer]
  | cons d rest ih =>
      intro h
      rw [List.pairwise_cons] at h
      obtain ⟨hd, hrest⟩ := h
      simp only [Runner.insertByLayer]
      split
      · rename_i hle
        rw [List.pairwise_cons]
        refine ⟨?_, ih hrest⟩
        intro x hx
        rcases List.mem_cons.mp ((insertByLayer_perm c rest).mem_iff.mp hx) with h1 | h2
        · subst h1; exact hle
        · exact hd x h2
      · rename_i hgt
        rw [List.pairwise_cons]
        refine ⟨?_, List.pairwise_cons.mpr ⟨hd, hrest⟩⟩
        intro x hx
        rcases List.mem_cons.mp hx with h1 | h2
        · subst h1; omega
        · have := hd x h2; omega

/-- `sortByLayer` yields ascending layer order. -/
theorem sortByLayer_sorted (checks : List Config.Check) :
    List.Pairwise (fun a b : Config.Check => a.layer ≤ b.layer)
      (Runner.sortByLayer checks) := by
  have key : ∀ (l acc : List Config.Check),
      List.Pairwise (fun a b : Config.Check => a.layer ≤ b.layer) acc →
      List.Pairwise (fun a b : Config.Check => a.layer ≤ b.layer)
        (l.foldl (fun a c => Runner.insertByLayer c a) acc) := by
    intro l
    induction l with
    | nil => intro acc h; simpa using h
    | cons c t ih => intro acc h; exact ih _ (insertByLayer_sorted c acc h)
  exact key checks [] (by simp)

/-- The fail-fast loop executes a prefix of its input, stops right after the
first blocking result, and stops early only on a blocking result. -/
theorem runLoop_spec (execute : Config.Check → Engine.CheckResult) :
    ∀ l : List Config.Check,
      (Runner.runLoop execute l
          = (l.take (Runner.runLoop execute l).length).map (fun c => (c, execute c)))
      ∧ (∀ l1 p l2, Runner.runLoop execute l = l1 ++ p :: l2 →
            p.2.IsGatingFailure = true → l2 = [])
      ∧ ((Runner.runLoop execute l).length < l.length →
            ∃ l1 p, Runner.runLoop execute l = l1 ++ [p]
              ∧ p.2.IsGatingFailure = true) := by
  intro l
  induction l with
  | nil =>
      refine ⟨rfl, ?_, ?_⟩
      · intro l1 p l2 h
        exact absurd h (by simp [Runner.runLoop])
      · intro h
        simp [Runner.runLoop] at h
  | cons c rest ih =>
      by_cases hb : (execute c).IsGatingFailure = true
      · have hrl : Runner.runLoop execute (c :: rest) = [(c, execute c)] := by
          simp [Runner.runLoop, hb, Runner.shouldFailFast]
        refine ⟨?_, ?_, ?_⟩
        · rw [hrl]; rfl
        · intro l1 p l2 h _
          rw [hrl] at h
          cases l1 with
          | nil =>
              simp only [List.nil_append] at h
              exact ((List.cons_eq_cons.mp h).2).symm
          | cons q l1q =>
              simp only [List.cons_append] at h
              have := (List.cons_eq_cons.mp h).2
              exact absurd this.symm (by simp)
        · intro _
          exact ⟨[], (c, execute c), by rw [hrl]; rfl, hb⟩
      · have hbf : (execute c).IsGatingFailure = false := by
          cases hx : (execute c).IsGatingFailure
          · rfl
          · exact absurd hx hb
        have hrl : Runner.runLoop execute (c :: rest)
            = (c, execute c) :: Runner.runLoop execute rest := by
          simp [Runner.runLoop, hbf]
        obtain ⟨ih1, ih2, ih3⟩ := ih
        refine ⟨?_, ?_, ?_⟩
        · rw [hrl]
          simp only [List.length_cons, List.take_succ_cons, List.map_cons]
          exact congrArg (List.cons _) ih1
        · intro l1 p l2 h hp
          rw [hrl] at h
          cases l1 with
          | nil =>
              simp only [List.nil_append] at h
              have hpc := (List.cons_eq_cons.mp h).1
              rw [← hpc] at hp
              rw [hp] at hbf
              exact absurd hbf (by simp)
          | cons q l1q =>
              simp only [List.cons_append] at h
              exact ih2 l1q p l2 (List.cons_eq_cons.mp h).2 hp
        · intro hlen
          rw [hrl] at hlen ⊢
          simp only [List.length_cons] at hlen
          have hlt : (Runner.runLoop execute rest).length < rest.length := by omega
          obtain ⟨l1, p, hEq, hPB⟩ := ih3 hlt
          exact ⟨(c, execute c) :: l1, p, by rw [hEq]; rfl, hPB⟩

/-- C7: `Run` reports the full declared total, its recorded results are the
executed prefix of the layer-sorted checks paired with their results, every
blocking result ends the recorded list, execution stops early only on a
blocking result, and the sorted order is an ascending-layer permutation of
the declared checks. -/
theorem claim_C7_failFast (execute : Config.Check → Engine.CheckResult)
    (checks : List Config.Check) :
    (Runner.Run execute checks).totalCount = checks.length
    ∧ (Runner.Run execute checks).results
        = ((Runner.sortByLayer checks).take
            (Runner.Run execute checks).results.length).map (fun c => (c, execute c))
    ∧ (∀ l1 p l2, (Runner.Run execute checks).results = l1 ++ p :: l2 →
          p.2.IsGatingFailure = true → l2 = [])
    ∧ ((Runner.Run execute checks).results.length
          < (Runner.sortByLayer checks).length →
          ∃ l1 p, (Runner.Run execute checks).results = l1 ++ [p]
            ∧ p.2.IsGatingFailure = true)
    ∧ (Runner.sortByLayer checks).Perm checks
    ∧ List.Pairwise (fun a b : Config.Check => a.layer ≤ b.layer)
        (Runner.sortByLayer checks) := by
  obtain ⟨h1, h2, h3⟩ := runLoop_spec execute (Runner.sortByLayer checks)
  exact ⟨rfl, h1, h2, h3, sortByLayer_perm checks, sortByLayer_sorted checks⟩

/-- Witness for C7: three layered checks where the second fails gating; the
run records two results, ends on the blocking one, and still reports three
declared checks. -/
theorem claim_C7_witness :
    (Runner.Run
        (fun c => if c.name = "B" then Engine.ClassifyResult 1 none [] true
                  else Engine.ClassifyResult 0 none [] true)
        [{ name := "A", layer := 1, command := "x" },
         { name := "B", layer := 2, command := "y" },
         { name := "C", layer := 3, command := "z" }]).totalCount = 3
    ∧ ∃ l1 p, (Runner.Run
        (fun c => if c.name = "B" then Engine.ClassifyResult 1 none [] true
                  else Engine.ClassifyResult 0 none [] true)
        [{ name := "A", layer := 1, command := "x" },
         { name := "B", layer := 2, command := "y" },
         { name := "C", layer := 3, command := "z" }]).results = l1 ++ [p]
        ∧ p.2.IsGatingFailure = true := by
  have h := claim_C7_failFast
    (fun c => if c.name = "B" then Engine.ClassifyResult 1 none [] true
              else Engine.ClassifyResult 0 none [] true)
    [{ name := "A", layer := 1, command := "x" },
     { name := "B", layer := 2, command := "y" },
     { name := "C", layer := 3, command := "z" }]
  exact ⟨h.1.trans (by decide), h.2.2.2.1 (by decide)⟩

/-- Classification preserves the raw exit code. -/
theorem classifyResult_exitCode (ec : Int) (err : Option String)
    (ve : List String) (g : Bool) :
    (Engine.ClassifyResult ec err ve g).exitCode = ec := by
  cases err with
  | some e => rfl
  | none =>
      simp only [Engine.ClassifyResult]
      split <;> rfl

/-- Classification preserves the execution error. -/
theorem classifyResult_executionError (ec : Int) (err : Option String)
    (ve : List String) (g : Bool) :
    (Engine.ClassifyResult ec err ve g).executionError = err := by
  cases err with
  | some e => rfl
  | none =>
      simp only [Engine.ClassifyResult]
      split <;> rfl

/-- C8 counterexample: a script-based check whose resolved path does not
exist is nevertheless handed to the shell by `executeCheck` (the built
command line is spawned), and with the shell reporting command-not-found
(exit 127) the classified result has exit status 127 — not the sentinel -1 —
and a nil execution error; the outcome is ERROR only via the
unexpected-exit-code rule. -/
theorem claim_C8_counterexample :
    (Runner.executeCheck Except.ok
        (fun _ _ => { output := "sh: missing.sh: not found", exitCode := 127,
                      error := none })
        (fun _ => none) "/checks" 3 2000
        { name := "missing-script", script := some { path := "missing.sh" } }).2
      = ["/checks/missing.sh"]
    ∧ (Runner.executeCheck Except.ok
        (fun _ _ => { output := "sh: missing.sh: not found", exitCode := 127,
                      error := none })
        (fun _ => none) "/checks" 3 2000
        { name := "missing-script", script := some { path := "missing.sh" } }).1.exitCode
      = 127
    ∧ (Runner.executeCheck Except.ok
        (fun _ _ => { output := "sh: missing.sh: not found", exitCode := 127,
                      error := none })
        (fun _ => none) "/checks" 3 2000
        { name := "missing-script", script := some { path := "missing.sh" } }).1.executionError
      = none
    ∧ (Runner.executeCheck Except.ok
        (fun _ _ => { output := "sh: missing.sh: not found", exitCode := 127,
                      error := none })
        (fun _ => none) "/checks" 3 2000
        { name := "missing-script", script := some { path := "missing.sh" } }).1.outcome
      = Engine.Outcome.error := by
  refine ⟨?_, ?_, ?_, ?_⟩ <;> decide

/-- C8 amended: `exec.RunScript` itself produces an immediate execution error
(exit sentinel -1, nothing spawned) when the resolved path is missing or a
directory; but the Runner's script-based execution path never consults the
file system — with a templated script check and retry disabled it always
hands the command line built by `buildScriptCommand` to the shell and
classifies whatever the shell returns. -/
theorem claim_C8_script_invocation (fs : String → Option Bool)
    (runCommand : String → Exec.CommandResult)
    (tmpl : Config.Check → Except String Config.Check)
    (runCmd : Nat → String → Exec.CommandResult)
    (compile : String → Option (String → Bool))
    (scriptPath : String) (args : List String) (checksDir : String)
    (maxRetries retryDelay : Int) (check tc : Config.Check)
    (script : Config.ScriptConfig) :
    ((fs (Runner.resolveScriptPath checksDir scriptPath) = none ∨
        fs (Runner.resolveScriptPath checksDir scriptPath) = some true) →
       (Runner.RunScript fs runCommand scriptPath args checksDir).1.exitCode = -1
       ∧ (Runner.RunScript fs runCommand scriptPath args checksDir).1.error ≠ none
       ∧ (Runner.RunScript fs runCommand scriptPath args checksDir).2 = [])
    ∧ (tmpl check = Except.ok tc → tc.script = some script → check.retry = false →
       (Runner.executeCheck tmpl runCmd compile checksDir maxRetries retryDelay
           check).2
          = [Runner.buildScriptCommand checksDir script]
       ∧ (Runner.executeCheck tmpl runCmd compile checksDir maxRetries retryDelay
           check).1.exitCode
          = (runCmd 0 (Runner.buildScriptCommand checksDir script)).exitCode
       ∧ (Runner.executeCheck tmpl runCmd compile checksDir maxRetries retryDelay
           check).1.executionError
          = (runCmd 0 (Runner.buildScriptCommand checksDir script)).error) := by
  constructor
  · rintro (h | h) <;> simp [Runner.RunScript, h]
  · intro h1 h2 h3
    simp only [Runner.executeCheck, h1, h2, h3, Bool.false_eq_true, if_false]
    refine ⟨by trivial, ?_, ?_⟩
    · exact classifyResult_exitCode _ _ _ _
    · exact classifyResult_executionError _ _ _ _

/-- Witness for C8 amended: a missing path makes `RunScript` return the
sentinel without spawning, while `executeCheck` on a script check spawns the
built command line. -/
theorem claim_C8_witness :
    (Runner.RunScript (fun _ => none)
        (fun _ => { output := "", exitCode := 0, error := none })
        "missing.sh" [] "/checks").1.exitCode = -1
    ∧ (Runner.RunScript (fun _ => none)
        (fun _ => { output := "", exitCode := 0, error := none })
        "missing.sh" [] "/checks").2 = []
    ∧ (Runner.executeCheck Except.ok
        (fun _ _ => { output := "", exitCode := 0, error := none })
        (fun _ => none) "/checks" 0 0
        { name := "s", script := some { path := "a.sh" } }).2
      = [Runner.buildScriptCommand "/checks" { path := "a.sh" }] := by
  have ha := (claim_C8_script_invocation (fun _ => none)
    (fun _ => { output := "", exitCode := 0, error := none })
    Except.ok (fun _ _ => { output := "", exitCode := 0, error := none })
    (fun _ => none) "missing.sh" [] "/checks" 0 0
    { name := "s", script := some { path := "a.sh" } }
    { name := "s", script := some { path := "a.sh" } }
    { path := "a.sh" }).1 (Or.inl rfl)
  have hb := (claim_C8_script_invocation (fun _ => none)
    (fun _ => { output := "", exitCode := 0, error := none })
    Except.ok (fun _ _ => { output := "", exitCode := 0, error := none })
    (fun _ => none) "missing.sh" [] "/checks" 0 0
    { name := "s", script := some { path := "a.sh" } }
    { name := "s", script := some { path := "a.sh" } }
    { path := "a.sh" }).2 rfl rfl rfl
  exact ⟨ha.1, ha.2.2, hb.1⟩

/-- Scanner step: a single quote closes single-quote mode. -/
theorem step_insq_close (L acc ws) :
    Sh.wordsAux Sh.SMode.insq (sqChar :: L) acc ws
      = Sh.wordsAux (Sh.SMode.unq true) L acc ws := rfl

/-- Scanner step: any other character is literal inside single quotes. -/
theorem step_insq_lit (c : Char) (h : ¬ c = sqChar) (L acc ws) :
    Sh.wordsAux Sh.SMode.insq (c :: L) acc ws
      = Sh.wordsAux Sh.SMode.insq L (c :: acc) ws := by
  simp only [Sh.wordsAux]
  rw [if_neg h]

/-- Scanner step: a double quote opens double-quote mode mid-word. -/
theorem step_unq_true_dq (L acc ws) :
    Sh.wordsAux (Sh.SMode.unq true) (dqChar :: L) acc ws
      = Sh.wordsAux Sh.SMode.indq L acc ws := rfl

/-- Scanner step: a single quote is literal inside double quotes. -/
theorem step_indq_sq (L acc ws) :
    Sh.wordsAux Sh.SMode.indq (sqChar :: L) acc ws
      = Sh.wordsAux Sh.SMode.indq L (sqChar :: acc) ws := rfl

/-- Scanner step: a double quote closes double-quote mode. -/
theorem step_indq_close (L acc ws) :
    Sh.wordsAux Sh.SMode.indq (dqChar :: L) acc ws
      = Sh.wordsAux (Sh.SMode.unq true) L acc ws := rfl

/-- Scanner step: a single quote reopens single-quote mode mid-word. -/
theorem step_unq_true_sq (L acc ws) :
    Sh.wordsAux (Sh.SMode.unq true) (sqChar :: L) acc ws
      = Sh.wordsAux Sh.SMode.insq L acc ws := rfl

/-- Scanner step: a single quote opens single-quote mode at word start. -/
theorem step_unq_false_sq (L acc ws) :
    Sh.wordsAux (Sh.SMode.unq false) (sqChar :: L) acc ws
      = Sh.wordsAux Sh.SMode.insq L acc ws := rfl

/-- Scanner step: a non-metacharacter is literal mid-word. -/
theorem step_unq_true_plain (c : Char) (hm : Exec.isShellMeta c = false)
    (L acc ws) :
    Sh.wordsAux (Sh.SMode.unq true) (c :: L) acc ws
      = Sh.wordsAux (Sh.SMode.unq true) L (c :: acc) ws := by
  simp only [Exec.isShellMeta, decide_eq_false_iff_not, not_or] at hm
  obtain ⟨h1, h2, h3, h4, h5, h6, h7, h8, h9, h10, h11, h12,
    h13, h14, h15, h16, h17, h18, h19, h20, h21, h22⟩ := hm
  simp only [Sh.wordsAux]
  simp [h1, h2, h3, h4, h5, h6, h7, h8, h10, h11, h12, h13,
    h16, h17, h18, h19, h20, h21, h22]

/-- Scanner step: a non-metacharacter other than the number sign and the
tilde starts a word. -/
theorem step_unq_false_plain (c : Char) (hm : Exec.isShellMeta c = false)
    (hh : c ≠ hashChar) (ht : c ≠ tildeChar) (L acc ws) :
    Sh.wordsAux (Sh.SMode.unq false) (c :: L) acc ws
      = Sh.wordsAux (Sh.SMode.unq true) L (c :: acc) ws := by
  simp only [Exec.isShellMeta, decide_eq_false_iff_not, not_or] at hm
  obtain ⟨h1, h2, h3, h4, h5, h6, h7, h8, h9, h10, h11, h12,
    h13, h14, h15, h16, h17, h18, h19, h20, h21, h22⟩ := hm
  simp only [Sh.wordsAux]
  simp [h1, h2, h3, h4, h5, h6, h7, h8, h10, h11, h12, h13,
    h16, h17, h18, h19, h20, h21, h22, hh, ht]

/-- Unfolding of the quote splice on an embedded single quote. -/
theorem escSq_cons_sq (t : List Char) :
    Exec.escSq (sqChar :: t)
      = sqChar :: dqChar :: sqChar :: dqChar :: sqChar :: Exec.escSq t := by
  simp [Exec.escSq]

/-- Unfolding of the quote splice on any other character. -/
theorem escSq_cons_ne (c : Char) (t : List Char) (h : ¬ c = sqChar) :
    Exec.escSq (c :: t) = c :: Exec.escSq t := by
  simp [Exec.escSq, h]

/-- Scanning the quote-spliced body of a single-quoted token accumulates
exactly the original characters and lands after the closing quote. -/
theorem wordsAux_escSq (s : List Char) :
    ∀ L acc ws,
      Sh.wordsAux Sh.SMode.insq (Exec.escSq s ++ sqChar :: L) acc ws
        = Sh.wordsAux (Sh.SMode.unq true) L (s.reverse ++ acc) ws := by
  induction s with
  | nil =>
      intro L acc ws
      simp only [Exec.escSq, List.nil_append, List.reverse_nil]
      exact step_insq_close L acc ws
  | cons c t ih =>
      intro L acc ws
      by_cases hc : c = sqChar
      · subst hc
        rw [escSq_cons_sq t]
        simp only [List.cons_append]
        rw [step_insq_close, step_unq_true_dq, step_indq_sq, step_indq_close,
          step_unq_true_sq, ih]
        simp
      · rw [escSq_cons_ne c t hc]
        simp only [List.cons_append]
        rw [step_insq_lit c hc, ih]
        simp

/-- Scanning a run of non-metacharacters mid-word accumulates them all. -/
theorem wordsAux_plainRun :
    ∀ (t : List Char), (∀ c ∈ t, Exec.isShellMeta c = false) →
      ∀ L acc ws, Sh.wordsAux (Sh.SMode.unq true) (t ++ L) acc ws
        = Sh.wordsAux (Sh.SMode.unq true) L (t.reverse ++ acc) ws := by
  intro t
  induction t with
  | nil => intro _ L acc ws; simp
  | cons c u ih =>
      intro hall L acc ws
      have hc : Exec.isShellMeta c = false := hall c (List.mem_cons_self c u)
      have hu : ∀ d ∈ u, Exec.isShellMeta d = false :=
        fun d hd => hall d (List.mem_cons_of_mem c hd)
      simp only [List.cons_append]
      rw [step_unq_true_plain c hc, ih hu]
      simp

/-- Character-level round trip: quoting a character list and scanning the
result yields it back as one word, unless it is an unquoted-safe token
starting with the number sign or the tilde. -/
theorem shellQuoteChars_roundTrip (l : List Char)
    (h : l.any Exec.isShellMeta = true ∨
         (∀ c, l.head? = some c → c ≠ hashChar ∧ c ≠ tildeChar)) :
    Sh.wordsAux (Sh.SMode.unq false) (Exec.shellQuoteChars l) [] [] = some [l] := by
  by_cases hmeta : l.any Exec.isShellMeta = true
  · have hne : l ≠ [] := by
      intro he
      subst he
      simp at hmeta
    have hq : Exec.shellQuoteChars l = sqChar :: (Exec.escSq l ++ [sqChar]) := by
      simp [Exec.shellQuoteChars, hne, hmeta]
    rw [hq, step_unq_false_sq, wordsAux_escSq l [] [] []]
    simp [Sh.wordsAux]
  · have hmf : l.any Exec.isShellMeta = false := by
      cases hx : l.any Exec.isShellMeta
      · rfl
      · exact absurd hx hmeta
    cases l with
    | nil => decide
    | cons c u =>
        obtain ⟨hh, ht⟩ := (h.resolve_left hmeta) c rfl
        have hcu : Exec.isShellMeta c = false ∧ u.any Exec.isShellMeta = false := by
          simpa [List.any_cons, Bool.or_eq_false_iff] using hmf
        have hum : ∀ d ∈ u, Exec.isShellMeta d = false := by
          intro d hd
          cases hx : Exec.isShellMeta d
          · rfl
          · exact absurd (List.any_eq_true.mpr ⟨d, hd, hx⟩)
              (by simp [hcu.2])
        have hq : Exec.shellQuoteChars (c :: u) = c :: u := by
          simp [Exec.shellQuoteChars, hmf]
        rw [hq, step_unq_false_plain c hcu.1 hh ht]
        have hrun := wordsAux_plainRun u hum [] [c] []
        simp only [List.append_nil] at hrun
        rw [hrun]
        simp [Sh.wordsAux]

/-- C9 amended: the shell-quoting round trip holds for every string that
contains a metacharacter (those are single-quote wrapped) and for every
other string whose first character is neither the number sign nor the tilde;
an unquoted-safe token beginning with one of those two word-start-sensitive
characters is the exception the code leaves unquoted. -/
theorem claim_C9_quote_roundTrip (s : String)
    (h : s.data.any Exec.isShellMeta = true ∨
         (∀ c, s.data.head? = some c → c ≠ hashChar ∧ c ≠ tildeChar)) :
    Sh.shellWords (Exec.shellQuote s) = some [s] := by
  obtain ⟨d⟩ := s
  show (Sh.wordsAux (Sh.SMode.unq false) (Exec.shellQuoteChars d) [] []).map
      (fun ws => ws.map String.mk) = some [String.mk d]
  rw [shellQuoteChars_roundTrip d h]
  rfl

/-- C9 counterexample: a number sign followed by a letter has no
metacharacter, passes through `shellQuote` unquoted, and the shell then
reads it as a comment — the round trip loses the argument instead of
reproducing it. -/
theorem claim_C9_counterexample :
    Sh.shellWords (Exec.shellQuote "#a") = some []
    ∧ Sh.shellWords (Exec.shellQuote "#a") ≠ some ["#a"] := by
  constructor
  · decide
  · decide

/-- Witness for C9 on a token containing a space (a metacharacter). -/
theorem claim_C9_witness :
    Sh.shellWords (Exec.shellQuote "a b") = some ["a b"] :=
  claim_C9_quote_roundTrip "a b" (Or.inl (by decide))
